import Mathlib

/-!
# Verification of the readwren session-checkpoint subsystem

A shallow embedding, in Lean 4, of the parts of the repository that the
checkpoint/turn-machine specification talks about:

* `src/agents/redis_checkpointer.py` — the `RedisCheckpointSaver` class
  (`_make_key`, `put`, `get_tuple`, `list`);
* `cli_interview.py` — the per-turn continue/quit/complete decision of the
  main conversation loop;
* `src/tools/profile_tools.py` — the `ConversationAnalyzerTool` coverage
  analyzer (`_run`, `_check_mentions`).

Modelling conventions:

* Python strings are modelled as `List Char` (`Str`); `":".join(parts)` is
  `joinColon`, `" ".join(parts)` is `joinSpace`, `s.lower()` is
  `List.map Char.toLower`, `in`/`startswith`/`endswith` are the list
  infix/prefix/suffix relations on character lists.
* The Redis backend is modelled as an association list from key to an entry
  holding the TTL and the stored bytes, with first-match lookup; `SETEX`
  replaces the binding or appends a fresh one, and `KEYS pat*` enumerates,
  in store order, the keys that start with `pat` (the patterns built by
  `list` are always a literal prefix followed by `*`).  Each Redis command
  is atomic on its own; a sequence of commands (`runCmds`) is executed one
  command at a time, so the state after a proper prefix of the sequence is
  observable by a concurrent client.
* `pickle.dumps` is modelled as an injective constructor `Bytes.pickled`;
  `Bytes.corrupt` stands for any stored bytes on which `pickle.loads`
  raises.  A Python function that can raise is embedded with an `Except`
  result, `.error ()` standing for the propagated exception.
* The LangGraph `Checkpoint` dict is modelled by its `id` entry (the only
  key the checkpointer reads) plus an opaque payload standing for all other
  entries; `metadata` is an opaque blob; `config` is modelled by the three
  `configurable` entries the checkpointer reads, each optional exactly as a
  Python `dict.get` chain sees them.
-/

set_option linter.unusedVariables false

/-! ## Definitions -/

abbrev Str : Type := List Char

/-- `s.data` of a Lean string literal, used to write `Str` constants. -/
def strL (s : String) : Str := s.data

/-- `s.lower()` (character-wise lowering, as for the ASCII data involved). -/
def toLowerStr (s : Str) : Str := s.map Char.toLower

/-- `":".join(parts)` on character lists. -/
def joinColon : List Str → Str
  | [] => []
  | [p] => p
  | p :: rest => p ++ ':' :: joinColon rest

/-- `" ".join(parts)` on character lists. -/
def joinSpace : List Str → Str
  | [] => []
  | [p] => p
  | p :: rest => p ++ ' ' :: joinSpace rest

/-! ## Data model of the checkpointer (`redis_checkpointer.py`) -/

/-- The LangGraph checkpoint dict: the checkpointer reads only
`checkpoint.get("id")`; everything else is the opaque `payload`. -/
structure Checkpoint where
  id : Option Str
  payload : Str
deriving DecidableEq, Repr

/-- Checkpoint metadata, opaque to the store. -/
abbrev Metadata : Type := Str

/-- The `config["configurable"]` sub-dict, each key optional as seen by the
`dict.get` chains of the source. -/
structure Configurable where
  thread_id : Option Str
  checkpoint_ns : Option Str
  checkpoint_id : Option Str
deriving DecidableEq, Repr

/-- A LangGraph config: possibly missing `configurable` entry. -/
structure Config where
  configurable : Option Configurable
deriving DecidableEq, Repr

/-- `config.get("configurable", {}).get("thread_id", "default")`. -/
def confThreadId (c : Config) : Str :=
  match c.configurable with
  | none => strL "default"
  | some cc => cc.thread_id.getD (strL "default")

/-- `config.get("configurable", {}).get("checkpoint_ns", "")`. -/
def confCheckpointNs (c : Config) : Str :=
  match c.configurable with
  | none => []
  | some cc => cc.checkpoint_ns.getD []

/-- `config.get("configurable", {}).get("checkpoint_id")`. -/
def confCheckpointId (c : Config) : Option Str :=
  c.configurable.bind (·.checkpoint_id)

/-- The record `put` serializes: `{"checkpoint": ..., "metadata": ...,
"config": safe_config}`. -/
structure StoredData where
  checkpoint : Checkpoint
  metadata : Metadata
  config : Config
deriving DecidableEq, Repr

/-- The bytes stored in Redis: either a pickled `StoredData`, or bytes on
which `pickle.loads` raises (anything foreign/corrupt). -/
inductive Bytes where
  | pickled (d : StoredData)
  | corrupt (tag : Nat)
deriving DecidableEq, Repr

/-- `pickle.dumps`. -/
def pickleDumps (d : StoredData) : Bytes := .pickled d

/-- `pickle.loads`; `none` models the raised exception on corrupt bytes. -/
def pickleLoads : Bytes → Option StoredData
  | .pickled d => some d
  | .corrupt _ => none

/-- The LangGraph `CheckpointTuple` as built by `get_tuple`/`list`. -/
structure CheckpointTuple where
  config : Config
  checkpoint : Checkpoint
  metadata : Metadata
  parent_config : Option Configurable
deriving DecidableEq, Repr

/-! ## The Redis backend model -/

/-- One stored value with the TTL (seconds) it was written with. -/
structure RedisEntry where
  ttl : Nat
  value : Bytes
deriving DecidableEq, Repr

/-- The key/value state of the Redis server, in insertion order. -/
abbrev RedisStore : Type := List (Str × RedisEntry)

/-- First-match lookup of a key's entry. -/
def redisFind : RedisStore → Str → Option RedisEntry
  | [], _ => none
  | (k, e) :: rest, q => if k = q then some e else redisFind rest q

/-- `GET key` — the stored bytes, if the key exists. -/
def redisGetVal (st : RedisStore) (k : Str) : Option Bytes :=
  (redisFind st k).map (·.value)

/-- `SETEX key ttl value` — overwrite the binding or append a fresh one. -/
def redisSetex (st : RedisStore) (k : Str) (t : Nat) (v : Bytes) : RedisStore :=
  match st with
  | [] => [(k, ⟨t, v⟩)]
  | (k', e) :: rest =>
      if k' = k then (k, ⟨t, v⟩) :: rest else (k', e) :: redisSetex rest k t v

/-- `KEYS pat*` for a literal pattern `pat` (no metacharacters before the
trailing `*`): the keys having `pat` as prefix, in store order. -/
def redisKeys (st : RedisStore) (pat : Str) : List Str :=
  (st.filter (fun kv => decide (pat <+: kv.1))).map (·.1)

/-- A single Redis command; each command executes atomically. -/
inductive RedisCmd where
  | setex (k : Str) (ttl : Nat) (v : Bytes)
deriving DecidableEq, Repr

/-- Execute one command. -/
def runCmd (st : RedisStore) : RedisCmd → RedisStore
  | .setex k t v => redisSetex st k t v

/-- Execute a sequence of commands, one at a time.  The store after a proper
prefix of the sequence is a state a concurrent client can observe. -/
def runCmds (st : RedisStore) (cs : List RedisCmd) : RedisStore :=
  cs.foldl runCmd st

/-! ## `RedisCheckpointSaver` -/

/-- The saver's construction parameters: the key namespace (default
`"langgraph:checkpoint"`) and the TTL in seconds (default 86400). -/
structure RedisCheckpointSaver where
  ns : Str
  ttl : Nat
deriving DecidableEq, Repr

/-- `_make_key(thread_id, checkpoint_ns, checkpoint_id)`:
`parts = [namespace, thread_id]`, appending `checkpoint_ns` if truthy, then
`checkpoint_id` if truthy else `"latest"`, joined with `":"`. -/
def make_key (ns : Str) (thread_id : Str) (checkpoint_ns : Str)
    (checkpoint_id : Option Str) : Str :=
  let parts := [ns, thread_id]
  let parts := if checkpoint_ns ≠ [] then parts ++ [checkpoint_ns] else parts
  let parts :=
    match checkpoint_id with
    | some cid => if cid ≠ [] then parts ++ [cid] else parts ++ [strL "latest"]
    | none => parts ++ [strL "latest"]
  joinColon parts

/-- The `safe_config` dict `put` stores. -/
def safeConfigOf (config : Config) (checkpoint : Checkpoint) : Config :=
  ⟨some ⟨some (confThreadId config), some (confCheckpointNs config), checkpoint.id⟩⟩

/-- The full record `put` pickles. -/
def storedDataOf (config : Config) (checkpoint : Checkpoint) (metadata : Metadata) :
    StoredData :=
  ⟨checkpoint, metadata, safeConfigOf config checkpoint⟩

/-- The two `SETEX` commands `put` issues, in source order: first the
specific key `_make_key(thread_id, checkpoint_ns, checkpoint.get("id"))`,
then the `"latest"` alias key, both with the configured TTL and the same
serialized record. -/
def putCmds (cp : RedisCheckpointSaver) (config : Config) (checkpoint : Checkpoint)
    (metadata : Metadata) : List RedisCmd :=
  let thread_id := confThreadId config
  let checkpoint_ns := confCheckpointNs config
  let serialized := pickleDumps (storedDataOf config checkpoint metadata)
  let key := make_key cp.ns thread_id checkpoint_ns checkpoint.id
  let latest_key := make_key cp.ns thread_id checkpoint_ns none
  [RedisCmd.setex key cp.ttl serialized, RedisCmd.setex latest_key cp.ttl serialized]

/-- `put(config, checkpoint, metadata, new_versions)` — the effect on the
store (the Python method also returns `config`, unchanged). -/
def put (cp : RedisCheckpointSaver) (config : Config) (checkpoint : Checkpoint)
    (metadata : Metadata) (st : RedisStore) : RedisStore :=
  runCmds st (putCmds cp config checkpoint metadata)

/-- How `get_tuple`/`list` turn a deserialized record into a
`CheckpointTuple`: `config=data["config"]`, `checkpoint=data["checkpoint"]`,
`metadata=data["metadata"]`,
`parent_config=data["config"].get("configurable")`. -/
def tupleOfData (d : StoredData) : CheckpointTuple :=
  ⟨d.config, d.checkpoint, d.metadata, d.config.configurable⟩

/-- `get_tuple(config)`: resolve the key, `GET`, return `None` when absent,
otherwise unpickle (raising on corrupt bytes, modelled by `.error ()`). -/
def get_tuple (cp : RedisCheckpointSaver) (config : Config) (st : RedisStore) :
    Except Unit (Option CheckpointTuple) :=
  let thread_id := confThreadId config
  let checkpoint_ns := confCheckpointNs config
  let checkpoint_id := confCheckpointId config
  let key := make_key cp.ns thread_id checkpoint_ns checkpoint_id
  match redisGetVal st key with
  | none => .ok none
  | some serialized =>
      match pickleLoads serialized with
      | none => .error ()
      | some data => .ok (some (tupleOfData data))

/-- The literal prefix of the `KEYS` pattern built by `list`:
`f"{namespace}:{thread_id}:{checkpoint_ns}:*"` when `checkpoint_ns` is
truthy, else `f"{namespace}:{thread_id}:*"`. -/
def patternOf (cp : RedisCheckpointSaver) (config : Config) : Str :=
  let thread_id := confThreadId config
  let checkpoint_ns := confCheckpointNs config
  if checkpoint_ns ≠ [] then
    cp.ns ++ ':' :: (thread_id ++ ':' :: (checkpoint_ns ++ [':']))
  else
    cp.ns ++ ':' :: (thread_id ++ [':'])

/-- The key loop of `list`: skip keys ending in `":latest"`, skip keys whose
`GET` is falsy, unpickle the rest (an unpickling failure raises out of the
whole loop), collect the tuples in key order. -/
def collectTuples (st : RedisStore) : List Str → Except Unit (List CheckpointTuple)
  | [] => .ok []
  | k :: rest =>
      if strL ":latest" <:+ k then collectTuples st rest
      else
        match redisGetVal st k with
        | none => collectTuples st rest
        | some serialized =>
            match pickleLoads serialized with
            | none => .error ()
            | some data => (collectTuples st rest).map (tupleOfData data :: ·)

/-- `list(config, filter=None, before=None, limit=None)`.  `limit` is
modelled as an optional natural number; the Python guard `if limit:` treats
both `None` and `0` as "no truncation". -/
def listCk (cp : RedisCheckpointSaver) (config : Config) (limit : Option Nat)
    (st : RedisStore) : Except Unit (List CheckpointTuple) :=
  let keysL := redisKeys st (patternOf cp config)
  match collectTuples st keysL with
  | .error e => .error e
  | .ok tuples =>
      .ok (match limit with
        | some n => if n ≠ 0 then tuples.take n else tuples
        | none => tuples)

/-! ## The CLI conversation loop (`cli_interview.py`)

The main loop reads a (stripped) user input each iteration, then:
empty input re-prompts; `quit`/`exit`/`q` (case-insensitively) ends the
interview with `completion_status = "early_exit"`; otherwise the input is
sent to the agent, the local `turn_count` is incremented, and the session
completes (`completion_status = "complete"`) when
`response.get("is_complete") or turn_count >= 12`, else the loop continues.
-/

/-- Modelled from the spec: the conversational-agent collaborator
(`InterviewAgent.send_message`, whose source file `interview_agent.py` is
not in the repository snapshot) returns a per-turn reply
`{message: string, turn_count: int, is_complete: bool}` whose internal
mechanics are opaque to this subsystem; the loop reads `message` and
`is_complete`. -/
structure AgentResponse where
  message : Str
  is_complete : Bool
deriving DecidableEq, Repr

/-- `user_input.lower() in ["quit", "exit", "q"]`. -/
def isQuitInput (s : Str) : Bool :=
  toLowerStr s = strL "quit" ∨ toLowerStr s = strL "exit" ∨ toLowerStr s = strL "q"

/-- The per-turn outcome of one iteration of the main loop. -/
inductive Decision where
  | retryInput
  | earlyExit
  | complete
  | continueInterview
deriving DecidableEq, Repr

/-- One loop iteration's decision, from the pre-turn `turn_count`, the
stripped user input, and the agent's reply.  The turn ceiling `12` is the
literal of `cli_interview.py` (`turn_count >= 12`, checked after
`turn_count += 1`). -/
def turnDecision (turn_count : Nat) (user_input : Str) (resp : AgentResponse) :
    Decision :=
  if user_input = [] then .retryInput
  else if isQuitInput user_input then .earlyExit
  else if resp.is_complete || (turn_count + 1 ≥ 12) then .complete
  else .continueInterview

/-- `completion_status` values the CLI passes to the profile generator. -/
inductive SessionStatus where
  | inProgress
  | complete
  | earlyExit
deriving DecidableEq, Repr

/-- The loop's session-relevant state: the local `turn_count` and whether a
terminal branch (`break`) has been taken. -/
structure LoopState where
  turn_count : Nat
  status : SessionStatus
deriving DecidableEq, Repr

/-- One loop iteration on the session state (no effect once terminal: the
loop has exited). -/
def stepLoop (s : LoopState) (input : Str) (resp : AgentResponse) : LoopState :=
  if s.status ≠ .inProgress then s
  else
    match turnDecision s.turn_count input resp with
    | .retryInput => s
    | .earlyExit => ⟨s.turn_count, .earlyExit⟩
    | .complete => ⟨s.turn_count + 1, .complete⟩
    | .continueInterview => ⟨s.turn_count + 1, .inProgress⟩

/-- Run the loop over a trace of (user input, agent reply) events, from a
fresh session. -/
def runLoop (events : List (Str × AgentResponse)) : LoopState :=
  events.foldl (fun s e => stepLoop s e.1 e.2) ⟨0, .inProgress⟩

/-! ## The coverage analyzer (`profile_tools.py`, `ConversationAnalyzerTool`) -/

/-- One entry of the `conversation_history` list: `role` models
`msg.get("role")` (a missing key behaves as any value different from
`"user"`), `content` models `msg.get("content", "")`. -/
structure ChatMessage where
  role : Str
  content : Str
deriving DecidableEq, Repr

/-- Keywords of the `taste_anchors` dimension. -/
def tasteAnchorsKw : List Str :=
  [strL "book", strL "author", strL "story", strL "novel"]

/-- Keywords of the `style_preference` dimension. -/
def stylePreferenceKw : List Str :=
  [strL "prose", strL "writing", strL "style", strL "voice"]

/-- Keywords of the `narrative_desire` dimension. -/
def narrativeDesireKw : List Str :=
  [strL "wish", strL "want", strL "story", strL "plot"]

/-- Keywords of the `consumption_habit` dimension. -/
def consumptionHabitKw : List Str :=
  [strL "read", strL "time", strL "daily", strL "pages"]

/-- The lowercased contents of the user-authored messages, in order
(`_check_mentions`' `user_messages`). -/
def userContents (conv : List ChatMessage) : List Str :=
  (conv.filter (fun m => m.role = strL "user")).map (fun m => toLowerStr m.content)

/-- `_check_mentions(conversation, keywords)`: join the lowercased user
messages with `" "` and test each keyword for substring membership. -/
def check_mentions (conv : List ChatMessage) (keywords : List Str) : Bool :=
  let full_text := joinSpace (userContents conv)
  keywords.any (fun kw => decide (kw <:+: full_text))

/-- Python's `round(x, 2)`; on this analyzer the score is always a multiple
of `1/4`, so `score * 100` is an integer and no rounding-tie behaviour is
exercised (Python's round-half-even and this half-up rounding agree on every
reachable input, both being the identity there). -/
def round2 (q : ℚ) : ℚ := (round (q * 100) : ℚ) / 100

/-- The `coverage` dict built by `_run`: the four fixed dimensions with
their `_check_mentions` results. -/
def coverageOf (conv : List ChatMessage) : List (Str × Bool) :=
  [(strL "taste_anchors", check_mentions conv tasteAnchorsKw),
   (strL "style_preference", check_mentions conv stylePreferenceKw),
   (strL "narrative_desire", check_mentions conv narrativeDesireKw),
   (strL "consumption_habit", check_mentions conv consumptionHabitKw)]

/-- The dict returned by `ConversationAnalyzerTool._run`; `none` in
`coverage_score`/`recommendation` models a key absent from the dict (the
empty-history early return omits both). -/
structure AnalysisResult where
  turn_count : Nat
  coverage : List (Str × Bool)
  coverage_score : Option ℚ
  ready_for_summary : Bool
  recommendation : Option Str
deriving DecidableEq, Repr

/-- `ConversationAnalyzerTool._run(conversation_history)`. -/
def analyzerRun (conv : List ChatMessage) : AnalysisResult :=
  if conv = [] then ⟨0, [], none, false, none⟩
  else
    let turn_count := (conv.filter (fun m => m.role = strL "user")).length
    let coverage := coverageOf conv
    let coverage_score : ℚ :=
      ((coverage.filter (·.2)).length : ℚ) / (coverage.length : ℚ)
    let ready_for_summary : Bool :=
      decide (turn_count ≥ 8) && decide (coverage_score ≥ (0.75 : ℚ))
    ⟨turn_count, coverage, some (round2 coverage_score), ready_for_summary,
      some (if ready_for_summary then strL "Consider wrapping up and summarizing profile"
            else strL "Continue probing for missing dimensions")⟩

/-! ## Concrete fixtures -/

/-- A saver with namespace `"ns"` and TTL `100`. -/
def saver0 : RedisCheckpointSaver := ⟨strL "ns", 100⟩

/-- A config for thread `"t"`, no checkpoint namespace, no checkpoint id. -/
def cfgT : Config := ⟨some ⟨some (strL "t"), none, none⟩⟩

/-- A config with no `configurable` entry at all. -/
def cfgNone : Config := ⟨none⟩

/-- A checkpoint with id `"c1"`. -/
def ckpt0 : Checkpoint := ⟨some (strL "c1"), strL "payload"⟩

def md0 : Metadata := strL "md"

/-- The record `put saver0 cfgT ckpt0 md0` stores. -/
def data0 : StoredData := storedDataOf cfgT ckpt0 md0

/-- The store after one `put` for thread `"t"`, checkpoint `"c1"`. -/
def st4 : RedisStore := put saver0 cfgT ckpt0 md0 []

/-! ## C1 -/

/-- Both keys hold `v`, or neither does: the property a reader observes at
every commit point iff the two writes are one atomic operation. -/
def updatedTogether (st : RedisStore) (k1 k2 : Str) (v : Bytes) : Prop :=
  (redisGetVal st k1 = some v ∧ redisGetVal st k2 = some v) ∨
  (redisGetVal st k1 ≠ some v ∧ redisGetVal st k2 ≠ some v)

/-! ## C9 -/

/-- The store of C9's scenario: a corrupt record under `"ns:t:c1"` and a
valid one under `"ns:t:c2"`, both for session `"t"`. -/
def st9 : RedisStore :=
  [(strL "ns:t:c1", ⟨100, Bytes.corrupt 0⟩),
   (strL "ns:t:c2", ⟨100, Bytes.pickled data0⟩)]

/-! ## C10 -/

/-- The config's `configurable` map lacks `thread_id` (or is absent). -/
def threadIdMissing (c : Config) : Prop :=
  c.configurable = none ∨ ∃ cc, c.configurable = some cc ∧ cc.thread_id = none

/-- A config whose `configurable` dict exists but has no `thread_id`. -/
def cfgB10 : Config := ⟨some ⟨none, none, none⟩⟩

/-! ## C5 -/

/-- One `put` call's arguments, for describing a workload of interleaved
checkpoint writes from several sessions. -/
structure PutOp where
  config : Config
  checkpoint : Checkpoint
  metadata : Metadata
deriving DecidableEq, Repr

/-- The record a given `put` call stores. -/
def opData (op : PutOp) : StoredData :=
  storedDataOf op.config op.checkpoint op.metadata

/-- Replay a sequence of `put` calls, in order. -/
def applyPuts (cp : RedisCheckpointSaver) : List PutOp → RedisStore → RedisStore
  | [], st => st
  | op :: rest, st =>
      applyPuts cp rest (put cp op.config op.checkpoint op.metadata st)

/-- Session ids of the C5 scenarios: `"s"` and the colon-carrying `"s:x"`. -/
def cfgA5 : Config := ⟨some ⟨some (strL "s"), none, none⟩⟩

def cfgB5 : Config := ⟨some ⟨some (strL "s:x"), none, none⟩⟩

/-- The record stored by session `"s:x"`'s put. -/
def dataB5 : StoredData := storedDataOf cfgB5 ckpt0 md0

/-- The store after session `"s:x"` writes checkpoint `"c1"`. -/
def st5 : RedisStore := put saver0 cfgB5 ckpt0 md0 []

/-- An interleaved two-session workload: `"s"` writes `"c1"`, then `"t"`
writes `"c1"`. -/
def opsW : List PutOp := [⟨cfgA5, ckpt0, md0⟩, ⟨cfgT, ckpt0, md0⟩]

/-- The claim's per-message reading of a dimension being covered: some
user-authored message contains some keyword of the dimension as a
(case-insensitive, via lowering) substring. -/
def dimCovered (conv : List ChatMessage) (keywords : List Str) : Prop :=
  ∃ m ∈ conv, m.role = strL "user" ∧ ∃ kw ∈ keywords, kw <:+: toLowerStr m.content

instance dimCovered.instDecidable (conv : List ChatMessage) (keywords : List Str) :
    Decidable (dimCovered conv keywords) := by
  unfold dimCovered
  infer_instance

/-- A concrete non-empty history: one user turn, one assistant turn. -/
def convW : List ChatMessage :=
  [⟨strL "user", strL "I want a Novel with good prose; I read daily"⟩,
   ⟨strL "assistant", strL "noted"⟩]

/-! ## Theorems -/

/-! ## Basic store lemmas -/

theorem redisFind_setex_self (st : RedisStore) (k : Str) (t : Nat) (v : Bytes) :
    redisFind (redisSetex st k t v) k = some ⟨t, v⟩ := by
  induction st with
  | nil => simp [redisSetex, redisFind]
  | cons kv rest ih =>
      obtain ⟨k', e⟩ := kv
      by_cases h : k' = k <;> simp [redisSetex, redisFind, h, ih]

theorem redisFind_setex_ne (st : RedisStore) (k q : Str) (t : Nat) (v : Bytes)
    (h : q ≠ k) : redisFind (redisSetex st k t v) q = redisFind st q := by
  induction st with
  | nil => simp [redisSetex, redisFind, Ne.symm h]
  | cons kv rest ih =>
      obtain ⟨k', e⟩ := kv
      by_cases hk : k' = k
      · subst hk
        simp [redisSetex, redisFind, Ne.symm h]
      · simp [redisSetex, redisFind, hk, ih]

theorem mem_setex {k : Str} {t : Nat} {v : Bytes} {kv : Str × RedisEntry} :
    ∀ {st : RedisStore}, kv ∈ redisSetex st k t v → kv = (k, ⟨t, v⟩) ∨ kv ∈ st := by
  intro st
  induction st with
  | nil => intro h; simpa [redisSetex] using h
  | cons kv' rest ih =>
      obtain ⟨k', e⟩ := kv'
      intro h
      by_cases hk : k' = k
      · rw [redisSetex, if_pos hk] at h
        rcases List.mem_cons.mp h with h | h
        · exact Or.inl h
        · exact Or.inr (List.mem_cons_of_mem _ h)
      · rw [redisSetex, if_neg hk] at h
        rcases List.mem_cons.mp h with h | h
        · exact Or.inr (by simp [h])
        · rcases ih h with h' | h'
          · exact Or.inl h'
          · exact Or.inr (List.mem_cons_of_mem _ h')

theorem redisFind_mem {k : Str} {e : RedisEntry} :
    ∀ {st : RedisStore}, redisFind st k = some e → (k, e) ∈ st := by
  intro st
  induction st with
  | nil => intro h; simp [redisFind] at h
  | cons kv rest ih =>
      obtain ⟨k', e'⟩ := kv
      intro h
      by_cases hk : k' = k
      · subst hk
        rw [redisFind, if_pos rfl] at h
        obtain rfl : e' = e := by exact Option.some.inj h
        exact List.mem_cons_self _ _
      · rw [redisFind, if_neg hk] at h
        exact List.mem_cons_of_mem _ (ih h)

/-- `put` is exactly two `SETEX` commands, specific key first. -/
theorem put_eq (cp : RedisCheckpointSaver) (config : Config) (ckpt : Checkpoint)
    (md : Metadata) (st : RedisStore) :
    put cp config ckpt md st =
      redisSetex
        (redisSetex st
          (make_key cp.ns (confThreadId config) (confCheckpointNs config) ckpt.id)
          cp.ttl (Bytes.pickled (storedDataOf config ckpt md)))
        (make_key cp.ns (confThreadId config) (confCheckpointNs config) none)
        cp.ttl (Bytes.pickled (storedDataOf config ckpt md)) := rfl

theorem put_find_latest (cp : RedisCheckpointSaver) (config : Config)
    (ckpt : Checkpoint) (md : Metadata) (st : RedisStore) :
    redisFind (put cp config ckpt md st)
        (make_key cp.ns (confThreadId config) (confCheckpointNs config) none) =
      some ⟨cp.ttl, Bytes.pickled (storedDataOf config ckpt md)⟩ := by
  rw [put_eq]; exact redisFind_setex_self ..

theorem put_find_specific (cp : RedisCheckpointSaver) (config : Config)
    (ckpt : Checkpoint) (md : Metadata) (st : RedisStore) :
    redisFind (put cp config ckpt md st)
        (make_key cp.ns (confThreadId config) (confCheckpointNs config) ckpt.id) =
      some ⟨cp.ttl, Bytes.pickled (storedDataOf config ckpt md)⟩ := by
  rw [put_eq]
  by_cases h :
      make_key cp.ns (confThreadId config) (confCheckpointNs config) ckpt.id =
      make_key cp.ns (confThreadId config) (confCheckpointNs config) none
  · rw [h]; exact redisFind_setex_self ..
  · rw [redisFind_setex_ne _ _ _ _ _ h]; exact redisFind_setex_self ..

/-- `put` followed by a `get_tuple` that resolves to the same session and
namespace with no explicit checkpoint id hits the `"latest"` alias and
deserializes the record just written. -/
theorem put_get_latest (cp : RedisCheckpointSaver) (cfgP cfgG : Config)
    (ckpt : Checkpoint) (md : Metadata) (st : RedisStore)
    (h1 : confThreadId cfgG = confThreadId cfgP)
    (h2 : confCheckpointNs cfgG = confCheckpointNs cfgP)
    (h3 : confCheckpointId cfgG = none) :
    get_tuple cp cfgG (put cp cfgP ckpt md st) =
      .ok (some (tupleOfData (storedDataOf cfgP ckpt md))) := by
  simp only [get_tuple, h1, h2, h3, redisGetVal, put_find_latest]
  rfl

/-- C1, counterexample to atomicity: `put` issues its two `SETEX` commands
separately (no `MULTI`/pipeline), so after the first command of
`putCmds saver0 cfgT ckpt0 md0` — a state a concurrent reader can observe —
the specific key `"ns:t:c1"` already holds the new record while the alias
key `"ns:t:latest"` does not. -/
theorem put_not_atomic_counterexample :
    ¬ updatedTogether (runCmds [] ((putCmds saver0 cfgT ckpt0 md0).take 1))
        (make_key saver0.ns (strL "t") [] ckpt0.id)
        (make_key saver0.ns (strL "t") [] none)
        (Bytes.pickled data0) := by
  unfold updatedTogether
  decide

/-- C1 (amended): after `put` returns, the store holds the same serialized
record `{checkpoint, metadata, config}` under both the specific key and the
`"latest"` alias key, each entry carrying the configured TTL — but the two
writes are two sequential `SETEX` commands, not one atomic operation
(see `put_not_atomic_counterexample`). -/
theorem put_writes_both_keys_with_ttl (cp : RedisCheckpointSaver) (config : Config)
    (ckpt : Checkpoint) (md : Metadata) (st : RedisStore) :
    redisFind (put cp config ckpt md st)
        (make_key cp.ns (confThreadId config) (confCheckpointNs config) ckpt.id) =
      some ⟨cp.ttl, pickleDumps (storedDataOf config ckpt md)⟩ ∧
    redisFind (put cp config ckpt md st)
        (make_key cp.ns (confThreadId config) (confCheckpointNs config) none) =
      some ⟨cp.ttl, pickleDumps (storedDataOf config ckpt md)⟩ :=
  ⟨put_find_specific .., put_find_latest ..⟩

/-! ## C2 -/

/-- C2: `Put` followed immediately by `Get` with the checkpoint id omitted
(hence resolving to `"latest"`) for the same session and checkpoint
namespace returns a checkpoint tuple whose checkpoint and metadata equal
what was written, for any payload the serializer accepts. -/
theorem put_then_get_latest_roundtrip (cp : RedisCheckpointSaver)
    (cfgP cfgG : Config) (ckpt : Checkpoint) (md : Metadata) (st : RedisStore)
    (h1 : confThreadId cfgG = confThreadId cfgP)
    (h2 : confCheckpointNs cfgG = confCheckpointNs cfgP)
    (h3 : confCheckpointId cfgG = none) :
    ∃ t : CheckpointTuple,
      get_tuple cp cfgG (put cp cfgP ckpt md st) = .ok (some t) ∧
      t.checkpoint = ckpt ∧ t.metadata = md :=
  ⟨tupleOfData (storedDataOf cfgP ckpt md),
    put_get_latest cp cfgP cfgG ckpt md st h1 h2 h3, rfl, rfl⟩

/-- C2 witness: a concrete put/get round trip on thread `"t"`. -/
theorem put_then_get_latest_roundtrip_witness :
    ∃ t : CheckpointTuple,
      get_tuple saver0 cfgT (put saver0 cfgT ckpt0 md0 []) = .ok (some t) ∧
      t.checkpoint = ckpt0 ∧ t.metadata = md0 :=
  put_then_get_latest_roundtrip saver0 cfgT cfgT ckpt0 md0 [] rfl rfl rfl

/-! ## C3 -/

/-- C3: when the config carries no checkpoint id, `get_tuple` resolves the
key exactly as if the id were the literal `"latest"`; and whenever the
resolved key is absent from the store — in particular for a never-written
session — it returns the explicit not-found value `None` instead of
raising. -/
theorem get_tuple_latest_notfound (cp : RedisCheckpointSaver) (config : Config)
    (st : RedisStore) (h : confCheckpointId config = none) :
    make_key cp.ns (confThreadId config) (confCheckpointNs config)
        (confCheckpointId config) =
      make_key cp.ns (confThreadId config) (confCheckpointNs config)
        (some (strL "latest")) ∧
    (redisGetVal st
        (make_key cp.ns (confThreadId config) (confCheckpointNs config)
          (confCheckpointId config)) = none →
      get_tuple cp config st = .ok none) := by
  constructor
  · rw [h]
    have : strL "latest" ≠ [] := by decide
    simp [make_key, this]
  · intro hget
    rw [h] at hget
    simp only [get_tuple, h, hget]

/-- C3 witness: a config with no `configurable` entry against the empty
store (a never-written session). -/
theorem get_tuple_latest_notfound_witness :
    make_key saver0.ns (confThreadId cfgNone) (confCheckpointNs cfgNone)
        (confCheckpointId cfgNone) =
      make_key saver0.ns (confThreadId cfgNone) (confCheckpointNs cfgNone)
        (some (strL "latest")) ∧
    (redisGetVal ([] : RedisStore)
        (make_key saver0.ns (confThreadId cfgNone) (confCheckpointNs cfgNone)
          (confCheckpointId cfgNone)) = none →
      get_tuple saver0 cfgNone ([] : RedisStore) = .ok none) :=
  get_tuple_latest_notfound saver0 cfgNone [] rfl

/-! ## Lemmas about the key loop of `list` -/

/-- Every tuple produced by the key loop comes from a matching key that does
not end in `":latest"`, whose stored bytes deserialize to the record the
tuple was built from. -/
theorem collect_sound {st : RedisStore} :
    ∀ {ks : List Str} {ts : List CheckpointTuple}, collectTuples st ks = .ok ts →
      ∀ t ∈ ts, ∃ k ∈ ks, ¬(strL ":latest" <:+ k) ∧
        ∃ b d, redisGetVal st k = some b ∧ pickleLoads b = some d ∧
          t = tupleOfData d := by
  intro ks
  induction ks with
  | nil =>
      intro ts h t ht
      rw [collectTuples] at h
      obtain rfl : ts = [] := (Except.ok.inj h).symm
      simp at ht
  | cons k rest ih =>
      intro ts h t ht
      rw [collectTuples] at h
      by_cases hl : strL ":latest" <:+ k
      · rw [if_pos hl] at h
        obtain ⟨k', hk', hrest⟩ := ih h t ht
        exact ⟨k', List.mem_cons_of_mem _ hk', hrest⟩
      · rw [if_neg hl] at h
        cases hget : redisGetVal st k with
        | none =>
            simp only [hget] at h
            obtain ⟨k', hk', hrest⟩ := ih h t ht
            exact ⟨k', List.mem_cons_of_mem _ hk', hrest⟩
        | some b =>
            simp only [hget] at h
            cases hload : pickleLoads b with
            | none => simp only [hload] at h; exact Except.noConfusion h
            | some d =>
                simp only [hload] at h
                cases hrec : collectTuples st rest with
                | error e =>
                    simp only [hrec, Except.map] at h
                    exact Except.noConfusion h
                | ok ts' =>
                    simp only [hrec, Except.map] at h
                    obtain rfl : ts = tupleOfData d :: ts' := (Except.ok.inj h).symm
                    rcases List.mem_cons.mp ht with rfl | ht'
                    · exact ⟨k, List.mem_cons_self _ _, hl, b, d, hget, hload, rfl⟩
                    · obtain ⟨k', hk', hrest⟩ := ih hrec t ht'
                      exact ⟨k', List.mem_cons_of_mem _ hk', hrest⟩

/-- If any iterated key is a non-`latest` key holding bytes that fail to
deserialize, the whole loop raises. -/
theorem collect_error {st : RedisStore} {k : Str} {b : Bytes}
    (hl : ¬(strL ":latest" <:+ k)) (hget : redisGetVal st k = some b)
    (hload : pickleLoads b = none) :
    ∀ {ks : List Str}, k ∈ ks → collectTuples st ks = .error () := by
  intro ks
  induction ks with
  | nil => intro hk; simp at hk
  | cons k' rest ih =>
      intro hk
      rw [collectTuples]
      rcases List.mem_cons.mp hk with rfl | hk'
      · rw [if_neg hl]
        simp only [hget, hload]
      · by_cases hl' : strL ":latest" <:+ k'
        · rw [if_pos hl']; exact ih hk'
        · rw [if_neg hl']
          cases hget' : redisGetVal st k' with
          | none => simp only [hget']; exact ih hk'
          | some b' =>
              simp only [hget']
              cases hload' : pickleLoads b' with
              | none => simp only [hload']
              | some d' => simp only [hload', ih hk', Except.map]

/-! ## C4 -/

/-- C4 (amended): whenever `list` succeeds, every returned item was read
from a key matching the session's pattern that does not end in `":latest"`
(so the `"latest"` alias entry is never a distinct item), and when a
*nonzero* limit is given at most `limit` items are returned.  A limit of
`0` is treated by `if limit:` as "no limit", which the counterexample shows
violates the claim as stated. -/
theorem list_excludes_latest_respects_limit (cp : RedisCheckpointSaver)
    (config : Config) (st : RedisStore) (limit : Option Nat)
    (ts : List CheckpointTuple) (h : listCk cp config limit st = .ok ts) :
    (∀ n, limit = some n → n ≠ 0 → ts.length ≤ n) ∧
    (∀ t ∈ ts, ∃ k, k ∈ redisKeys st (patternOf cp config) ∧
      ¬(strL ":latest" <:+ k) ∧
      ∃ b d, redisGetVal st k = some b ∧ pickleLoads b = some d ∧
        t = tupleOfData d) := by
  cases limit with
  | none =>
      simp only [listCk] at h
      cases hrec : collectTuples st (redisKeys st (patternOf cp config)) with
      | error e => simp [hrec] at h
      | ok tuples =>
          simp only [hrec] at h
          obtain rfl : tuples = ts := Except.ok.inj h
          refine ⟨fun n hn => Option.noConfusion hn, fun t ht => ?_⟩
          obtain ⟨k, hk, hrest⟩ := collect_sound hrec t ht
          exact ⟨k, hk, hrest⟩
  | some n =>
      simp only [listCk] at h
      cases hrec : collectTuples st (redisKeys st (patternOf cp config)) with
      | error e => simp [hrec] at h
      | ok tuples =>
          simp only [hrec] at h
          by_cases hnz : n ≠ 0
          · rw [if_pos hnz] at h
            have hts : tuples.take n = ts := Except.ok.inj h
            refine ⟨?_, fun t ht => ?_⟩
            · intro n' hn' _
              obtain rfl : n = n' := Option.some.inj hn'
              rw [← hts]
              exact List.length_take_le n tuples
            · have htup : t ∈ tuples := List.mem_of_mem_take (hts ▸ ht)
              obtain ⟨k, hk, hrest⟩ := collect_sound hrec t htup
              exact ⟨k, hk, hrest⟩
          · rw [if_neg hnz] at h
            have hts : tuples = ts := Except.ok.inj h
            refine ⟨?_, fun t ht => ?_⟩
            · intro n' hn' hnz'
              obtain rfl : n = n' := Option.some.inj hn'
              exact absurd hnz' hnz
            · obtain ⟨k, hk, hrest⟩ := collect_sound hrec t (hts ▸ ht)
              exact ⟨k, hk, hrest⟩

/-- C4 witness: one put for session `"t"`; `list` with limit `1` returns the
single specific-id record. -/
theorem list_excludes_latest_respects_limit_witness :
    (∀ n, (some 1 : Option Nat) = some n → n ≠ 0 →
      [tupleOfData data0].length ≤ n) ∧
    (∀ t ∈ [tupleOfData data0], ∃ k, k ∈ redisKeys st4 (patternOf saver0 cfgT) ∧
      ¬(strL ":latest" <:+ k) ∧
      ∃ b d, redisGetVal st4 k = some b ∧ pickleLoads b = some d ∧
        t = tupleOfData d) :=
  list_excludes_latest_respects_limit saver0 cfgT st4 (some 1)
    [tupleOfData data0] rfl

/-- C4 counterexample: with an explicit `limit=0`, `list` returns one item
on a store holding one specific checkpoint — more than `limit` — because the
Python guard `if limit:` treats `0` as falsy. -/
theorem list_limit_zero_counterexample :
    listCk saver0 cfgT (some 0) st4 = .ok [tupleOfData data0] ∧
    ¬([tupleOfData data0].length ≤ 0) := ⟨rfl, by decide⟩

/-- C9 counterexample: `st9` holds one corrupt and one valid record for the
session, and `list` raises (`pickle.loads` is not guarded), returning no
items at all instead of the remaining valid checkpoint. -/
theorem list_corrupt_aborts_counterexample :
    redisGetVal st9 (strL "ns:t:c2") = some (Bytes.pickled data0) ∧
    pickleLoads (Bytes.pickled data0) = some data0 ∧
    pickleLoads (Bytes.corrupt 0) = none ∧
    listCk saver0 cfgT none st9 = .error () := ⟨rfl, rfl, rfl, rfl⟩

/-- C9 (amended): if any enumerated non-`latest` key of the session holds
bytes on which deserialization fails, the failure propagates out of `list`
and aborts the entire call — the remaining valid checkpoints are not
returned. -/
theorem list_aborts_on_corrupt (cp : RedisCheckpointSaver) (config : Config)
    (limit : Option Nat) (st : RedisStore) (k : Str) (b : Bytes)
    (hk : k ∈ redisKeys st (patternOf cp config))
    (hl : ¬(strL ":latest" <:+ k))
    (hget : redisGetVal st k = some b)
    (hload : pickleLoads b = none) :
    listCk cp config limit st = .error () := by
  rw [listCk, collect_error hl hget hload hk]

/-- C9 witness: the corrupt record of `st9` aborts a `list` call carrying a
limit. -/
theorem list_aborts_on_corrupt_witness :
    listCk saver0 cfgT (some 5) st9 = .error () :=
  list_aborts_on_corrupt saver0 cfgT (some 5) st9 (strL "ns:t:c1")
    (Bytes.corrupt 0) (by decide) (by decide) rfl rfl

/-! ## C6 -/

/-- From any in-progress state, a run of non-empty, non-quit turns whose
count reaches the ceiling, with every response before the last one not
signalling completion, ends at `turn_count = 12` with status `complete`. -/
theorem loop_reaches_ceiling :
    ∀ (events : List (Str × AgentResponse)) (n : Nat),
      n + events.length = 12 → events ≠ [] →
      (∀ e ∈ events, e.1 ≠ [] ∧ isQuitInput e.1 = false) →
      (∀ e ∈ events.dropLast, e.2.is_complete = false) →
      events.foldl (fun s e => stepLoop s e.1 e.2) ⟨n, .inProgress⟩ =
        ⟨12, .complete⟩ := by
  intro events
  induction events with
  | nil => intro n _ hne _ _; exact absurd rfl hne
  | cons e rest ih =>
      intro n hlen _ hgood hdrop
      obtain ⟨hne, hnq⟩ := hgood e (List.mem_cons_self _ _)
      cases rest with
      | nil =>
          have hn : n = 11 := by simp at hlen; omega
          subst hn
          simp [List.foldl, stepLoop, turnDecision, hne, hnq]
      | cons e2 rest2 =>
          have hic : e.2.is_complete = false := by
            apply hdrop e
            rw [List.dropLast_cons₂]
            exact List.mem_cons_self _ _
          have hlt : ¬(n + 1 ≥ 12) := by simp at hlen; omega
          have h11 : ¬(11 ≤ n) := by omega
          have hstep : stepLoop ⟨n, .inProgress⟩ e.1 e.2 = ⟨n + 1, .inProgress⟩ := by
            simp [stepLoop, turnDecision, hne, hnq, hic, hlt, h11]
          rw [List.foldl_cons, hstep]
          refine ih (n + 1) (by simp at hlen ⊢; omega) (by simp) ?_ ?_
          · intro e' he'; exact hgood e' (List.mem_cons_of_mem _ he')
          · intro e' he'
            apply hdrop e'
            rw [List.dropLast_cons₂]
            exact List.mem_cons_of_mem _ he'

/-- C6: with the hard ceiling of 12, a session that processes 12 non-empty,
non-quit user turns — the first 11 responses not signalling completion, the
12th response arbitrary — ends on the 12th turn with `turn_count = 12` and
`completion_status = "complete"`, regardless of any coverage ratio or
readiness recommendation (the loop consults neither). -/
theorem twelfth_turn_forces_complete (events : List (Str × AgentResponse))
    (hlen : events.length = 12)
    (hgood : ∀ e ∈ events, e.1 ≠ [] ∧ isQuitInput e.1 = false)
    (hdrop : ∀ e ∈ events.dropLast, e.2.is_complete = false) :
    runLoop events = ⟨12, .complete⟩ := by
  have hne : events ≠ [] := by
    intro h; rw [h] at hlen; simp at hlen
  exact loop_reaches_ceiling events 0 (by omega) hne hgood hdrop

/-- C6 witness: twelve concrete turns, every response with
`is_complete = false` — the ceiling alone forces completion. -/
theorem twelfth_turn_forces_complete_witness :
    runLoop (List.replicate 12 (strL "hello", AgentResponse.mk (strL "m") false)) =
      ⟨12, .complete⟩ :=
  twelfth_turn_forces_complete _ (by decide) (by decide) (by decide)

/-! ## C7 -/

/-- C7 counterexample: two turns agreeing on `(turn_count, max_turns,
explicit_quit_signal)` — pre-turn count 4, ceiling 12, same non-quit input —
whose agent replies differ only in the reported `is_complete` flag, receive
different decisions. -/
theorem decision_depends_on_reply_counterexample :
    turnDecision 4 (strL "hello") ⟨strL "m", true⟩ = Decision.complete ∧
    turnDecision 4 (strL "hello") ⟨strL "m", false⟩ = Decision.continueInterview ∧
    Decision.complete ≠ Decision.continueInterview := by decide

/-- C7 (amended): for non-empty inputs, the per-turn decision is a function
of `(turn_count, max_turns = 12, explicit_quit_signal, the agent-reported
is_complete flag)` only: two turns agreeing on those — whatever their input
text and reply message content, and with no dependence on wall-clock time
(absent from the computation) — receive the same decision. -/
theorem decision_function_of_inputs (tc : Nat) (i1 i2 : Str)
    (r1 r2 : AgentResponse) (h1 : i1 ≠ []) (h2 : i2 ≠ [])
    (hq : isQuitInput i1 = isQuitInput i2)
    (hc : r1.is_complete = r2.is_complete) :
    turnDecision tc i1 r1 = turnDecision tc i2 r2 := by
  simp only [turnDecision, if_neg h1, if_neg h2, hq, hc]

/-- C7 witness: different input texts and reply messages, same quit signal
and same `is_complete`, same decision. -/
theorem decision_function_of_inputs_witness :
    turnDecision 3 (strL "alpha") ⟨strL "msgA", false⟩ =
      turnDecision 3 (strL "beta") ⟨strL "msgB", false⟩ :=
  decision_function_of_inputs 3 (strL "alpha") (strL "beta")
    ⟨strL "msgA", false⟩ ⟨strL "msgB", false⟩ (by decide) (by decide)
    (by decide) rfl

theorem confThreadId_of_missing {c : Config} (h : threadIdMissing c) :
    confThreadId c = strL "default" := by
  rcases h with h | ⟨cc, hc, ht⟩
  · simp [confThreadId, h]
  · simp [confThreadId, hc, ht]

/-- C10: when a config lacks `thread_id` (or `configurable` entirely), the
checkpointer silently resolves the session id to `"default"`: `put` under
such a config and a later `get_tuple` under another thread-id-less config
read and write the same shared `"default"` session keys, so the second
caller observes the first caller's checkpoint (recorded under thread
`"default"`); `list`'s key pattern likewise collapses to the explicit
`"default"` session's pattern. -/
theorem missing_thread_id_defaults (cp : RedisCheckpointSaver)
    (cfgA cfgB : Config) (ckpt : Checkpoint) (md : Metadata) (st : RedisStore)
    (hA : threadIdMissing cfgA) (hB : threadIdMissing cfgB)
    (hns : confCheckpointNs cfgA = confCheckpointNs cfgB)
    (hid : confCheckpointId cfgB = none) :
    confThreadId cfgA = strL "default" ∧
    patternOf cp cfgA =
      patternOf cp ⟨some ⟨some (strL "default"), some (confCheckpointNs cfgA), none⟩⟩ ∧
    ∃ t : CheckpointTuple,
      get_tuple cp cfgB (put cp cfgA ckpt md st) = .ok (some t) ∧
      t.checkpoint = ckpt ∧ t.metadata = md ∧
      confThreadId t.config = strL "default" := by
  have hA' := confThreadId_of_missing hA
  have hB' := confThreadId_of_missing hB
  refine ⟨hA', ?_, ?_⟩
  · have h1 : confThreadId
        ⟨some ⟨some (strL "default"), some (confCheckpointNs cfgA), none⟩⟩ =
        strL "default" := rfl
    have h2 : confCheckpointNs
        ⟨some ⟨some (strL "default"), some (confCheckpointNs cfgA), none⟩⟩ =
        confCheckpointNs cfgA := rfl
    simp only [patternOf, hA', h1, h2]
  · refine ⟨tupleOfData (storedDataOf cfgA ckpt md),
      put_get_latest cp cfgA cfgB ckpt md st (by rw [hA', hB']) hns.symm hid,
      rfl, rfl, ?_⟩
    exact hA'

/-- C10 witness: one caller with no `configurable` at all, another with a
`configurable` lacking `thread_id`, sharing the `"default"` session. -/
theorem missing_thread_id_defaults_witness :
    confThreadId cfgNone = strL "default" ∧
    patternOf saver0 cfgNone =
      patternOf saver0
        ⟨some ⟨some (strL "default"), some (confCheckpointNs cfgNone), none⟩⟩ ∧
    ∃ t : CheckpointTuple,
      get_tuple saver0 cfgB10 (put saver0 cfgNone ckpt0 md0 []) = .ok (some t) ∧
      t.checkpoint = ckpt0 ∧ t.metadata = md0 ∧
      confThreadId t.config = strL "default" :=
  missing_thread_id_defaults saver0 cfgNone cfgB10 ckpt0 md0 []
    (Or.inl rfl) (Or.inr ⟨_, rfl, rfl⟩) rfl rfl

theorem joinColon_cons (p q : Str) (rest : List Str) :
    joinColon (p :: q :: rest) = p ++ ':' :: joinColon (q :: rest) := rfl

/-- Every key `_make_key` builds is `namespace ++ ":" ++ thread_id ++ ":" ++
something`. -/
theorem make_key_shape (ns tid cns : Str) (idOpt : Option Str) :
    ∃ r, make_key ns tid cns idOpt = ns ++ ':' :: (tid ++ ':' :: r) := by
  cases idOpt with
  | none =>
      by_cases hc : cns ≠ []
      · refine ⟨cns ++ ':' :: strL "latest", ?_⟩
        simp only [make_key, if_pos hc]
        rfl
      · refine ⟨strL "latest", ?_⟩
        simp only [make_key, if_neg hc]
        rfl
  | some cid =>
      by_cases hc : cns ≠ [] <;> by_cases hcid : cid ≠ []
      · refine ⟨cns ++ ':' :: cid, ?_⟩
        simp only [make_key, if_pos hc, if_pos hcid]
        rfl
      · refine ⟨cns ++ ':' :: strL "latest", ?_⟩
        simp only [make_key, if_pos hc, if_neg hcid]
        rfl
      · refine ⟨cid, ?_⟩
        simp only [make_key, if_neg hc, if_pos hcid]
        rfl
      · refine ⟨strL "latest", ?_⟩
        simp only [make_key, if_neg hc, if_neg hcid]
        rfl

/-- The pattern `list` builds is `namespace ++ ":" ++ thread_id ++ ":" ++
something` as well (`something` may be empty). -/
theorem patternOf_shape (cp : RedisCheckpointSaver) (config : Config) :
    ∃ s, patternOf cp config =
      cp.ns ++ ':' :: (confThreadId config ++ ':' :: s) := by
  simp only [patternOf]
  by_cases h : confCheckpointNs config ≠ []
  · rw [if_pos h]; exact ⟨_, rfl⟩
  · rw [if_neg h]; exact ⟨[], rfl⟩

theorem prefix_cancel (l : List Char) :
    ∀ {a b : List Char}, (l ++ a) <+: (l ++ b) → a <+: b := by
  induction l with
  | nil => intro a b h; simpa using h
  | cons c cs ih =>
      intro a b h
      simp only [List.cons_append] at h
      exact ih (List.cons_prefix_cons.mp h).2

/-- Two colon-free segments followed by `':'` agree whenever one such string
is a prefix of the other: the first colon delimits both. -/
theorem colon_prefix_eq :
    ∀ (a : List Char), ':' ∉ a → ∀ (b : List Char), ':' ∉ b →
      ∀ (p r : List Char), (a ++ ':' :: p) <+: (b ++ ':' :: r) → a = b := by
  intro a
  induction a with
  | nil =>
      intro _ b hb p r h
      cases b with
      | nil => rfl
      | cons c bs =>
          simp only [List.nil_append, List.cons_append] at h
          obtain ⟨hc, _⟩ := List.cons_prefix_cons.mp h
          subst hc
          exact absurd (List.mem_cons_self _ _) hb
  | cons x as ih =>
      intro ha b hb p r h
      cases b with
      | nil =>
          simp only [List.cons_append, List.nil_append] at h
          obtain ⟨hc, _⟩ := List.cons_prefix_cons.mp h
          subst hc
          exact absurd (List.mem_cons_self _ _) ha
      | cons y bs =>
          simp only [List.cons_append] at h
          obtain ⟨hxy, htail⟩ := List.cons_prefix_cons.mp h
          have ha' : ':' ∉ as := fun hm => ha (List.mem_cons_of_mem _ hm)
          have hb' : ':' ∉ bs := fun hm => hb (List.mem_cons_of_mem _ hm)
          rw [hxy, ih ha' bs hb' p r htail]

/-- Provenance of every entry of a store built by replaying `put` calls:
each binding either predates the replay or carries some call's record under
that call's specific or `"latest"` key. -/
theorem applyPuts_mem (cp : RedisCheckpointSaver) :
    ∀ (ops : List PutOp) (st : RedisStore) (kv : Str × RedisEntry),
      kv ∈ applyPuts cp ops st →
      kv ∈ st ∨ ∃ op ∈ ops, kv.2.value = Bytes.pickled (opData op) ∧
        (kv.1 = make_key cp.ns (confThreadId op.config)
            (confCheckpointNs op.config) op.checkpoint.id ∨
         kv.1 = make_key cp.ns (confThreadId op.config)
            (confCheckpointNs op.config) none) := by
  intro ops
  induction ops with
  | nil => intro st kv h; exact Or.inl h
  | cons op rest ih =>
      intro st kv h
      rw [applyPuts] at h
      rcases ih (put cp op.config op.checkpoint op.metadata st) kv h with
        h' | ⟨op', hop', hval, hkey⟩
      · rw [put_eq] at h'
        rcases mem_setex h' with rfl | h''
        · exact Or.inr ⟨op, List.mem_cons_self _ _, rfl, Or.inr rfl⟩
        · rcases mem_setex h'' with rfl | h3
          · exact Or.inr ⟨op, List.mem_cons_self _ _, rfl, Or.inl rfl⟩
          · exact Or.inl h3
      · exact Or.inr ⟨op', List.mem_cons_of_mem _ hop', hval, hkey⟩

/-- Each item of a successful `list` call comes from some enumerated
non-`latest` key whose bytes deserialize to the record behind the item. -/
theorem listCk_mem {cp : RedisCheckpointSaver} {config : Config}
    {limit : Option Nat} {st : RedisStore} {ts : List CheckpointTuple}
    (h : listCk cp config limit st = .ok ts) {t : CheckpointTuple}
    (ht : t ∈ ts) :
    ∃ k, k ∈ redisKeys st (patternOf cp config) ∧ ¬(strL ":latest" <:+ k) ∧
      ∃ b d, redisGetVal st k = some b ∧ pickleLoads b = some d ∧
        t = tupleOfData d := by
  cases limit with
  | none =>
      simp only [listCk] at h
      cases hrec : collectTuples st (redisKeys st (patternOf cp config)) with
      | error e => simp [hrec] at h
      | ok tuples =>
          simp only [hrec] at h
          obtain rfl : tuples = ts := Except.ok.inj h
          exact collect_sound hrec t ht
  | some n =>
      simp only [listCk] at h
      cases hrec : collectTuples st (redisKeys st (patternOf cp config)) with
      | error e => simp [hrec] at h
      | ok tuples =>
          simp only [hrec] at h
          by_cases hnz : n ≠ 0
          · rw [if_pos hnz] at h
            have hts : tuples.take n = ts := Except.ok.inj h
            exact collect_sound hrec t (List.mem_of_mem_take (hts ▸ ht))
          · rw [if_neg hnz] at h
            have hts : tuples = ts := Except.ok.inj h
            exact collect_sound hrec t (hts ▸ ht)

/-- C5 (amended): for session ids free of the key separator `':'`, `list`
for session A over a store built from any interleaved workload of `put`
calls returns only records written by calls whose resolved session id is
A's — never another session's entries.  (The counterexample shows the claim
fails for ids containing `':'`.) -/
theorem listed_sessions_isolated (cp : RedisCheckpointSaver) (ops : List PutOp)
    (cfgA : Config) (limit : Option Nat) (ts : List CheckpointTuple)
    (hA : ':' ∉ confThreadId cfgA)
    (hops : ∀ op ∈ ops, ':' ∉ confThreadId op.config)
    (h : listCk cp cfgA limit (applyPuts cp ops []) = .ok ts) :
    ∀ t ∈ ts, ∃ op ∈ ops, confThreadId op.config = confThreadId cfgA ∧
      t = tupleOfData (opData op) := by
  intro t ht
  obtain ⟨k, hk, hlatest, b, d, hget, hload, hteq⟩ := listCk_mem h ht
  have hpre : patternOf cp cfgA <+: k := by
    simp only [redisKeys] at hk
    obtain ⟨kv', hkv', hfst⟩ := List.mem_map.mp hk
    have hdec := (List.mem_filter.mp hkv').2
    exact of_decide_eq_true (hfst ▸ hdec)
  obtain ⟨e, hfind, hbval⟩ : ∃ e, redisFind (applyPuts cp ops []) k = some e ∧
      e.value = b := by
    simp only [redisGetVal] at hget
    cases hfind : redisFind (applyPuts cp ops []) k with
    | none => rw [hfind] at hget; exact Option.noConfusion hget
    | some e => rw [hfind] at hget; exact ⟨e, rfl, Option.some.inj hget⟩
  have hmem := redisFind_mem hfind
  rcases applyPuts_mem cp ops [] (k, e) hmem with h0 | ⟨op, hop, hval, hkey⟩
  · simp at h0
  · have hb : b = Bytes.pickled (opData op) := by rw [← hbval]; exact hval
    have hd : d = opData op := by
      rw [hb] at hload
      exact (Option.some.inj hload).symm
    have htid : confThreadId op.config = confThreadId cfgA := by
      obtain ⟨sA, hsA⟩ := patternOf_shape cp cfgA
      have hkshape : ∃ r, k = cp.ns ++ ':' :: (confThreadId op.config ++ ':' :: r) := by
        rcases hkey with hkeq | hkeq
        · obtain ⟨r, hr⟩ := make_key_shape cp.ns (confThreadId op.config)
            (confCheckpointNs op.config) op.checkpoint.id
          exact ⟨r, hkeq.trans hr⟩
        · obtain ⟨r, hr⟩ := make_key_shape cp.ns (confThreadId op.config)
            (confCheckpointNs op.config) none
          exact ⟨r, hkeq.trans hr⟩
      obtain ⟨r, hr⟩ := hkshape
      rw [hsA, hr] at hpre
      have hpre' : (cp.ns ++ [':']) ++ (confThreadId cfgA ++ ':' :: sA) <+:
          (cp.ns ++ [':']) ++ (confThreadId op.config ++ ':' :: r) := by
        simpa [List.append_assoc] using hpre
      exact (colon_prefix_eq (confThreadId cfgA) hA (confThreadId op.config)
        (hops op hop) sA r (prefix_cancel _ hpre')).symm
    exact ⟨op, hop, htid, by rw [hteq, hd]⟩

/-- C5 counterexample: session ids are opaque caller-supplied strings, and
for the distinct ids `"s"` and `"s:x"` the glob pattern `"ns:s:*"` of
session `"s"` matches session `"s:x"`'s key `"ns:s:x:c1"`: `list` for `"s"`
returns the record written for `"s:x"` — cross-session contamination. -/
theorem list_cross_session_counterexample :
    listCk saver0 cfgA5 none st5 = .ok [tupleOfData dataB5] ∧
    confThreadId (tupleOfData dataB5).config = strL "s:x" ∧
    confThreadId cfgA5 = strL "s" ∧
    strL "s:x" ≠ strL "s" := ⟨rfl, rfl, rfl, by decide⟩

/-- C5 witness: with colon-free ids `"s"` and `"t"` interleaved, `list` for
`"s"` returns only the record written by `"s"`'s own put — here the single
returned tuple is traced back to a put of session `"s"`. -/
theorem listed_sessions_isolated_witness :
    ∃ op ∈ opsW, confThreadId op.config = confThreadId cfgA5 ∧
      tupleOfData (storedDataOf cfgA5 ckpt0 md0) = tupleOfData (opData op) :=
  listed_sessions_isolated saver0 opsW cfgA5 none
    [tupleOfData (storedDataOf cfgA5 ckpt0 md0)]
    (by decide) (by decide) rfl
    (tupleOfData (storedDataOf cfgA5 ckpt0 md0)) (List.mem_cons_self _ _)

/-! ## C8 -/

theorem joinSpace_cons (p q : Str) (rest : List Str) :
    joinSpace (p :: q :: rest) = p ++ ' ' :: joinSpace (q :: rest) := rfl

/-- A list avoiding `c` that is a prefix of `a ++ c :: b` already fits
inside `a`. -/
theorem prefix_no_char {c : Char} :
    ∀ {k a b : List Char}, c ∉ k → k <+: (a ++ c :: b) → k <+: a := by
  intro k
  induction k with
  | nil => intro a b _ _; exact List.nil_prefix
  | cons y k' ih =>
      intro a b hc h
      cases a with
      | nil =>
          simp only [List.nil_append] at h
          obtain ⟨hy, _⟩ := List.cons_prefix_cons.mp h
          subst hy
          exact absurd (List.mem_cons_self _ _) hc
      | cons x a' =>
          simp only [List.cons_append] at h
          obtain ⟨hy, htail⟩ := List.cons_prefix_cons.mp h
          have hc' : c ∉ k' := fun hm => hc (List.mem_cons_of_mem _ hm)
          subst hy
          exact List.cons_prefix_cons.mpr ⟨rfl, ih hc' htail⟩

/-- An infix avoiding `c` of `a ++ c :: b` lies in `a` or in `b`: the
separator cannot occur inside it. -/
theorem infix_split {c : Char} {k : List Char} :
    ∀ (a b : List Char), c ∉ k → k <:+: (a ++ c :: b) → k <:+: a ∨ k <:+: b := by
  intro a
  induction a with
  | nil =>
      intro b hc h
      simp only [List.nil_append] at h
      rcases List.infix_cons_iff.mp h with h1 | h2
      · have h1' : k <+: ([] : List Char) ++ c :: b := by simpa using h1
        have hk : k <+: ([] : List Char) := prefix_no_char hc h1'
        exact Or.inl hk.isInfix
      · exact Or.inr h2
  | cons x a' ih =>
      intro b hc h
      simp only [List.cons_append] at h
      rcases List.infix_cons_iff.mp h with h1 | h2
      · have h1' : k <+: (x :: a') ++ c :: b := by simpa using h1
        exact Or.inl (prefix_no_char hc h1').isInfix
      · rcases ih b hc h2 with h3 | h3
        · exact Or.inl (List.infix_cons h3)
        · exact Or.inr h3

/-- A non-empty, space-free string is a substring of
`" ".join(messages)` exactly when it is a substring of some message. -/
theorem infix_joinSpace {k : List Char} (hsp : ' ' ∉ k) (hne : k ≠ []) :
    ∀ msgs : List Str, (k <:+: joinSpace msgs ↔ ∃ m ∈ msgs, k <:+: m) := by
  intro msgs
  induction msgs with
  | nil =>
      constructor
      · intro h
        exact absurd (List.eq_nil_of_infix_nil h) hne
      · rintro ⟨m, hm, _⟩
        simp at hm
  | cons m ms ih =>
      cases ms with
      | nil => simp [joinSpace]
      | cons m2 ms2 =>
          rw [joinSpace_cons]
          constructor
          · intro h
            rcases infix_split m (joinSpace (m2 :: ms2)) hsp h with h1 | h2
            · exact ⟨m, List.mem_cons_self _ _, h1⟩
            · obtain ⟨m', hm', hk⟩ := ih.mp h2
              exact ⟨m', List.mem_cons_of_mem _ hm', hk⟩
          · rintro ⟨m', hm', hk⟩
            rcases List.mem_cons.mp hm' with rfl | hm2
            · exact hk.trans (List.prefix_append m' _).isInfix
            · have hj : k <:+: joinSpace (m2 :: ms2) := ih.mpr ⟨m', hm2, hk⟩
              exact hj.trans
                ((List.suffix_cons ' ' _).trans (List.suffix_append m _)).isInfix

/-- For non-empty space-free keywords, `_check_mentions`' joined-text
substring test agrees with the per-message reading: the `" "` separator
cannot take part in a match. -/
theorem check_mentions_iff (conv : List ChatMessage) (keywords : List Str)
    (hkw : ∀ kw ∈ keywords, kw ≠ [] ∧ ' ' ∉ kw) :
    check_mentions conv keywords = true ↔ dimCovered conv keywords := by
  unfold check_mentions dimCovered
  rw [List.any_eq_true]
  constructor
  · rintro ⟨kw, hkw', hdec⟩
    have hinf := of_decide_eq_true hdec
    obtain ⟨hne, hsp⟩ := hkw kw hkw'
    obtain ⟨m', hm', hkm⟩ := (infix_joinSpace hsp hne (userContents conv)).mp hinf
    simp only [userContents] at hm'
    obtain ⟨m, hmf, rfl⟩ := List.mem_map.mp hm'
    obtain ⟨hmc, hrole⟩ := List.mem_filter.mp hmf
    exact ⟨m, hmc, of_decide_eq_true hrole, kw, hkw', hkm⟩
  · rintro ⟨m, hm, hrole, kw, hkw', hkm⟩
    refine ⟨kw, hkw', decide_eq_true ?_⟩
    obtain ⟨hne, hsp⟩ := hkw kw hkw'
    apply (infix_joinSpace hsp hne (userContents conv)).mpr
    refine ⟨toLowerStr m.content, ?_, hkm⟩
    simp only [userContents]
    exact List.mem_map_of_mem _
      (List.mem_filter.mpr ⟨hm, decide_eq_true hrole⟩)

theorem check_mentions_eq_decide (conv : List ChatMessage) (kws : List Str)
    (hkw : ∀ kw ∈ kws, kw ≠ [] ∧ ' ' ∉ kw) :
    check_mentions conv kws = decide (dimCovered conv kws) := by
  have hiff := check_mentions_iff conv kws hkw
  by_cases hd : dimCovered conv kws
  · rw [hiff.mpr hd, decide_eq_true hd]
  · rw [decide_eq_false hd]
    cases hcv : check_mentions conv kws with
    | false => rfl
    | true => exact absurd (hiff.mp hcv) hd

/-- `round(x, 2)` is the identity on the five reachable scores. -/
theorem round2_quarter (cnt : Nat) (h : cnt ≤ 4) :
    round2 ((cnt : ℚ) / 4) = (cnt : ℚ) / 4 := by
  interval_cases cnt <;> norm_num [round2]

/-- C8 (amended): for every **non-empty** conversation history, the
analyzer counts user-authored turns, marks each of the four fixed
dimensions covered exactly when some user-authored message contains one of
the dimension's keywords as a case-insensitive substring, returns
`coverage_score = covered_count / 4`, and returns `ready_for_summary` true
exactly when `turn_count >= 8` and `coverage_score >= 0.75`.  (On the empty
history the code takes an early return with no `coverage_score` and an
empty coverage map — the counterexample.) -/
theorem analyzer_coverage_spec (conv : List ChatMessage) (hne : conv ≠ []) :
    (analyzerRun conv).turn_count =
      (conv.filter (fun m => m.role = strL "user")).length ∧
    (analyzerRun conv).coverage =
      [(strL "taste_anchors", decide (dimCovered conv tasteAnchorsKw)),
       (strL "style_preference", decide (dimCovered conv stylePreferenceKw)),
       (strL "narrative_desire", decide (dimCovered conv narrativeDesireKw)),
       (strL "consumption_habit", decide (dimCovered conv consumptionHabitKw))] ∧
    (analyzerRun conv).coverage_score =
      some (((((analyzerRun conv).coverage.filter (·.2)).length : ℚ)) / 4) ∧
    ((analyzerRun conv).ready_for_summary = true ↔
      ((analyzerRun conv).turn_count ≥ 8 ∧
        ((((analyzerRun conv).coverage.filter (·.2)).length : ℚ) / 4 ≥
          (0.75 : ℚ)))) := by
  have h1 := check_mentions_eq_decide conv tasteAnchorsKw (by decide)
  have h2 := check_mentions_eq_decide conv stylePreferenceKw (by decide)
  have h3 := check_mentions_eq_decide conv narrativeDesireKw (by decide)
  have h4 := check_mentions_eq_decide conv consumptionHabitKw (by decide)
  have htc : (analyzerRun conv).turn_count =
      (conv.filter (fun m => m.role = strL "user")).length := by
    simp only [analyzerRun, if_neg hne]
  have hrawcov : (analyzerRun conv).coverage = coverageOf conv := by
    simp only [analyzerRun, if_neg hne]
  have hcovlen : ((coverageOf conv).length : ℚ) = 4 := by
    simp only [coverageOf]; norm_num
  have hcntle : ((coverageOf conv).filter (·.2)).length ≤ 4 :=
    List.length_filter_le _ _
  have hscore : (analyzerRun conv).coverage_score =
      some (round2 ((((coverageOf conv).filter (·.2)).length : ℚ) /
        ((coverageOf conv).length : ℚ))) := by
    simp only [analyzerRun, if_neg hne]
  have hready : (analyzerRun conv).ready_for_summary =
      (decide ((conv.filter (fun m => m.role = strL "user")).length ≥ 8) &&
       decide (((((coverageOf conv).filter (·.2)).length : ℚ) /
         ((coverageOf conv).length : ℚ)) ≥ (0.75 : ℚ))) := by
    simp only [analyzerRun, if_neg hne]
  refine ⟨htc, ?_, ?_, ?_⟩
  · rw [hrawcov]
    simp only [coverageOf, h1, h2, h3, h4]
  · rw [hscore, hrawcov, hcovlen, round2_quarter _ hcntle]
  · rw [hready, Bool.and_eq_true, decide_eq_true_eq, decide_eq_true_eq,
      htc, hrawcov, hcovlen]

/-- C8 counterexample: on the empty history the analyzer's early return
carries no `coverage_score` at all (and an empty coverage map), where the
claim requires the score `0 / 4`. -/
theorem analyzer_empty_counterexample :
    (analyzerRun []).coverage_score = none ∧
    (analyzerRun []).coverage = [] ∧
    (none : Option ℚ) ≠ some ((0 : ℚ)) := ⟨rfl, rfl, by decide⟩

/-- C8 witness: the analyzer specification at the concrete history
`convW`. -/
theorem analyzer_coverage_spec_witness :
    (analyzerRun convW).turn_count =
      (convW.filter (fun m => m.role = strL "user")).length ∧
    (analyzerRun convW).coverage =
      [(strL "taste_anchors", decide (dimCovered convW tasteAnchorsKw)),
       (strL "style_preference", decide (dimCovered convW stylePreferenceKw)),
       (strL "narrative_desire", decide (dimCovered convW narrativeDesireKw)),
       (strL "consumption_habit", decide (dimCovered convW consumptionHabitKw))] ∧
    (analyzerRun convW).coverage_score =
      some (((((analyzerRun convW).coverage.filter (·.2)).length : ℚ)) / 4) ∧
    ((analyzerRun convW).ready_for_summary = true ↔
      ((analyzerRun convW).turn_count ≥ 8 ∧
        ((((analyzerRun convW).coverage.filter (·.2)).length : ℚ) / 4 ≥
          (0.75 : ℚ)))) :=
  analyzer_coverage_spec convW (by decide)
